import Mathlib

/-!
Shallow embedding of the lead-assignment core of the
`simpleAdvertisingCRM` Go repository (`main.go` together with the model
file declaring `Client` and `TimePeriod`).

Modelling choices:
* Go strings are modelled as `List Char` (the relevant strings are ASCII).
* `time.Time` values are modelled by the `DateTime` structure below; the
  order used by `time.Time.After` / `time.Time.Before` is modelled by a
  mixed-radix integer key which coincides with chronological order on
  every in-range value (month < 13, day < 32, hour < 24, minute < 60,
  second < 60, nano < 10^9), which covers every value the program builds.
* `time.Now()` is passed in explicitly as a `now : DateTime` parameter.
* the SQLite registry is modelled as a `List Client`; the query
  `SELECT ... ORDER BY priority DESC, existing_leads ASC` is modelled by
  a stable insertion sort with the corresponding key (SQL leaves the
  order of full ties unspecified; the sort fixes one such order), and
  the statement `UPDATE clients SET existing_leads = existing_leads + 1
  WHERE id = ?` by a map over the registry guarded by the id.
-/

/-- Client record, from the Go `Client` struct (model file). -/
structure Client where
  ID : Int
  Name : List Char
  WorkingHours : List Char
  Priority : Int
  LeadCapacity : Int
  ExistingLeads : Int
deriving DecidableEq

/-- Local wall-clock instant, modelling `time.Time` for the single local
location the program uses. -/
structure DateTime where
  year : Int
  month : Int
  day : Int
  hour : Int
  minute : Int
  second : Int
  nano : Int
deriving DecidableEq

/-- Mixed-radix encoding of a `DateTime`.  On in-range field values it is
strictly monotone with respect to chronological order, so comparing keys
models `time.Time.After` / `time.Time.Before`. -/
def DateTime.key (t : DateTime) : Int :=
  ((((((t.year * 13 + t.month) * 32 + t.day) * 24 + t.hour) * 60 + t.minute) * 60
      + t.second) * 1000000000) + t.nano

/-- Model of `a.After(b)`: `a` is strictly later than `b`. -/
def DateTime.after (a b : DateTime) : Bool :=
  decide (b.key < a.key)

/-- Model of `a.Before(b)`: `a` is strictly earlier than `b`. -/
def DateTime.before (a b : DateTime) : Bool :=
  decide (a.key < b.key)

instance : LT DateTime := ⟨fun a b => a.key < b.key⟩

instance (a b : DateTime) : Decidable (a < b) :=
  inferInstanceAs (Decidable (a.key < b.key))

/-- TimePeriod, from the Go `TimePeriod` struct (model file). -/
structure TimePeriod where
  Start : DateTime
  End : DateTime
deriving DecidableEq

/-- Model of `strings.Split(s, "-")`: splits on every occurrence of the
dash, and the empty string yields one (empty) part. -/
def splitDash : List Char → List (List Char)
  | [] => [[]]
  | c :: rest =>
    if c = '-' then
      [] :: splitDash rest
    else
      match splitDash rest with
      | [] => [[c]]
      | p :: ps => (c :: p) :: ps

/-- Numeric value of an ASCII digit character, as in Go's `c - '0'`. -/
def digitVal (c : Char) : Int :=
  (c.toNat : Int) - 48

/-- Model of Go `time.Parse("15:04", s)`, reduced to the hour/minute pair
it yields.  The layout element `15` consumes two digits when two are
available and one otherwise, and the hour must be below 24; the element
`04` consumes exactly two digits and the minute must be below 60; any
remaining input is an error ("extra text"). -/
def parseHHMM (cs : List Char) : Option (Int × Int) :=
  match cs with
  | [] => none
  | d1 :: rest1 =>
    if d1.isDigit then
      let hr : Int × List Char :=
        match rest1 with
        | d2 :: rest2 =>
          if d2.isDigit then (10 * digitVal d1 + digitVal d2, rest2)
          else (digitVal d1, d2 :: rest2)
        | [] => (digitVal d1, [])
      if hr.1 ≤ 23 then
        match hr.2 with
        | ':' :: m1 :: m2 :: [] =>
          if m1.isDigit && m2.isDigit then
            let minute := 10 * digitVal m1 + digitVal m2
            if minute ≤ 59 then some (hr.1, minute) else none
          else none
        | _ => none
      else none
    else none

/-- Error outcomes of `parseTimePeriod`, one per `return` of an error in
the Go function: the format error for a split that is not two parts, and
the two side-naming wrap errors around `time.Parse` failures. -/
inductive PeriodError where
  | formatError
  | startTimeError
  | endTimeError
deriving DecidableEq

/-- Model of `time.Date(year, month, day, h, m, 0, 0, loc)` with the date
taken from `now`, as in the anchoring step of `parseTimePeriod`. -/
def anchorToDay (now : DateTime) (h m : Int) : DateTime :=
  { year := now.year, month := now.month, day := now.day,
    hour := h, minute := m, second := 0, nano := 0 }

/-- Model of `parseTimePeriod` from `main.go`: split on `-`, parse both
sides as `HH:MM`, then anchor both to the calendar date of `now`
(the `time.Now()` read inside the function). -/
def parseTimePeriod (now : DateTime) (s : List Char) : Except PeriodError TimePeriod :=
  match splitDash s with
  | [t0, t1] =>
    match parseHHMM t0 with
    | none => .error .startTimeError
    | some se =>
      match parseHHMM t1 with
      | none => .error .endTimeError
      | some en =>
        .ok { Start := anchorToDay now se.1 se.2, End := anchorToDay now en.1 en.2 }
  | _ => .error .formatError

instance : DecidableEq (Except PeriodError TimePeriod) := fun x y =>
  match x, y with
  | .ok a, .ok b =>
    if h : a = b then isTrue (by rw [h]) else isFalse (by simp [h])
  | .error a, .error b =>
    if h : a = b then isTrue (by rw [h]) else isFalse (by simp [h])
  | .ok a, .error b => isFalse (by simp)
  | .error a, .ok b => isFalse (by simp)

/-- Outcomes of the `assignLead` handler, one per terminal response of the
Go function on the scan path: HTTP 202 with the client id, the HTTP 500
"Failed to parse working hours" configuration error, and the HTTP 404
"No suitable client found" response. -/
inductive AssignResult where
  | assigned (clientId : Int)
  | configError
  | noEligible
deriving DecidableEq

/-- Model of `UPDATE clients SET existing_leads = existing_leads + 1 WHERE
id = ?`: increment the lead counter of every registry row whose id
matches (the schema's PRIMARY KEY makes that at most one row). -/
def incrementLead (registry : List Client) (cid : Int) : List Client :=
  registry.map fun c =>
    if c.ID = cid then { c with ExistingLeads := c.ExistingLeads + 1 } else c

/-- Model of the scan loop of `assignLead` (`main.go` lines 203-233): walk
the snapshot in order; a parse failure aborts with the configuration
error; a client strictly inside its window and under capacity receives
the lead (the registry row is updated and the scan stops); an in-window
client at capacity is skipped (`continue`), as is an out-of-window one;
an exhausted snapshot yields the no-suitable-client response. -/
def assignScan (now : DateTime) (registry : List Client) :
    List Client → AssignResult × List Client
  | [] => (.noEligible, registry)
  | c :: rest =>
    match parseTimePeriod now c.WorkingHours with
    | .error _ => (.configError, registry)
    | .ok wh =>
      if now.after wh.Start && now.before wh.End then
        if c.ExistingLeads < c.LeadCapacity then
          (.assigned c.ID, incrementLead registry c.ID)
        else
          assignScan now registry rest
      else
        assignScan now registry rest

/-- Comparison used to model `ORDER BY priority DESC, existing_leads ASC`:
`a` may come before `b` when `a` has strictly higher priority, or equal
priority and no larger lead count. -/
def clientLE (a b : Client) : Bool :=
  decide (b.Priority < a.Priority ∨
    (a.Priority = b.Priority ∧ a.ExistingLeads ≤ b.ExistingLeads))

/-- Ordered insertion of a client into a list sorted by `clientLE`. -/
def insertClient (c : Client) : List Client → List Client
  | [] => [c]
  | d :: rest => if clientLE c d then c :: d :: rest else d :: insertClient c rest

/-- Model of the ordered snapshot the `assignLead` query reads: the
registry rows sorted by priority descending, ties by lead count
ascending (the order of remaining ties is unspecified by SQL; the
stable insertion sort fixes one such order). -/
def orderedSnapshot (registry : List Client) : List Client :=
  registry.foldr insertClient []

/-- Model of the whole `assignLead` handler on the scan path: read the
ordered snapshot, then scan it, updating the registry on success. -/
def assignLead (now : DateTime) (registry : List Client) :
    AssignResult × List Client :=
  assignScan now registry (orderedSnapshot registry)

/-- Eligibility predicate of the spec's engine, read off the Go checks on
lines 211-212: the instant is strictly inside the parsed window and the
client is under capacity. -/
def isEligible (now : DateTime) (wh : TimePeriod) (c : Client) : Bool :=
  (now.after wh.Start && now.before wh.End) && decide (c.ExistingLeads < c.LeadCapacity)

/-- Eligibility of a client record on its own: its window parses and the
eligibility predicate holds for the parsed window. -/
def clientEligible (now : DateTime) (c : Client) : Bool :=
  match parseTimePeriod now c.WorkingHours with
  | .error _ => false
  | .ok wh => isEligible now wh c

/-- Modelled from the spec: the eligibility predicate as §4.2 words it,
with `now` in the half-open interval `[period.start, period.end)`
(inclusive start, exclusive end) and the client under capacity.  This
definition follows the claim's words, to be compared with `isEligible`,
which follows the source. -/
def isEligibleSpec (now : DateTime) (wh : TimePeriod) (c : Client) : Bool :=
  (decide (wh.Start.key ≤ now.key) && decide (now.key < wh.End.key)) &&
    decide (c.ExistingLeads < c.LeadCapacity)

/-- Successful-parse test for a client's working-hours string. -/
def windowParses (now : DateTime) (c : Client) : Bool :=
  match parseTimePeriod now c.WorkingHours with
  | .ok _ => true
  | .error _ => false

/-- ASCII digit character for a digit value, as rendered in `HH:MM`. -/
def digitChar (d : Int) : Char :=
  Char.ofNat (48 + d.toNat)

/-- Zero-padded rendering of an hour/minute pair as the five characters
`HH:MM`; `parseTimePeriod` inputs of the valid shape are exactly
concatenations of two such renderings around a dash. -/
def renderHHMM (h m : Int) : List Char :=
  [digitChar (h / 10), digitChar (h % 10), ':', digitChar (m / 10), digitChar (m % 10)]

/-- Model of two concurrent `assignLead` requests under the interleaving
in which both handlers run the snapshot query before either runs its
`UPDATE`.  Each handler checks capacity against its own (now stale)
snapshot and the `UPDATE` increments unconditionally, exactly as in the
Go handler, so this schedule is realizable against the shared registry.
Returns both outcomes and the final registry. -/
def twoRequestRace (now : DateTime) (registry : List Client) :
    (AssignResult × AssignResult) × List Client :=
  let snapA := orderedSnapshot registry
  let snapB := orderedSnapshot registry
  let rA := assignScan now registry snapA
  let rB := assignScan now rA.2 snapB
  ((rA.1, rB.1), rB.2)

/-- An afternoon instant (14:00 local) on an arbitrary fixed date, used
for concrete evaluations; matches the spec's §8 scenario time. -/
def now14 : DateTime :=
  ⟨2024, 6, 15, 14, 0, 0, 0⟩

/-- The instant 09:00 sharp on the same date: the inclusive-start
boundary instant of the window `"09:00-17:00"`. -/
def now9 : DateTime :=
  ⟨2024, 6, 15, 9, 0, 0, 0⟩

/-- First client of the repository's test fixture. -/
def clientOne : Client :=
  ⟨1, "Client One".toList, "09:00-17:00".toList, 3, 10, 10⟩

/-- Second client of the repository's test fixture. -/
def clientTwo : Client :=
  ⟨2, "Client Two".toList, "12:00-20:00".toList, 3, 5, 0⟩

/-- Third client of the repository's test fixture. -/
def clientThree : Client :=
  ⟨3, "Client Three".toList, "16:30-00:30".toList, 2, 7, 0⟩

/-- The test-fixture registry, in creation order. -/
def fixtureRegistry : List Client :=
  [clientOne, clientTwo, clientThree]

/-- A client with lead capacity 1 and zero load, in its window at 14:00:
the configuration of the spec's concurrency stress scenario. -/
def raceClient : Client :=
  ⟨1, "Race".toList, "09:00-17:00".toList, 1, 1, 0⟩

/-- The parsed period of `"09:00-17:00"` on the fixture date. -/
def period9to17 : TimePeriod :=
  ⟨⟨2024, 6, 15, 9, 0, 0, 0⟩, ⟨2024, 6, 15, 17, 0, 0, 0⟩⟩

/-- Transitivity of the snapshot ordering. -/
theorem clientLE_trans (a b c : Client) (hab : clientLE a b = true)
    (hbc : clientLE b c = true) : clientLE a c = true := by
  simp only [clientLE, decide_eq_true_eq] at *
  omega

/-- Totality of the snapshot ordering. -/
theorem clientLE_total (a b : Client) : (clientLE a b || clientLE b a) = true := by
  simp only [clientLE, Bool.or_eq_true, decide_eq_true_eq]
  omega

/-- Membership through ordered insertion. -/
theorem mem_insertClient (a c : Client) (l : List Client) :
    a ∈ insertClient c l ↔ a = c ∨ a ∈ l := by
  induction l with
  | nil => simp [insertClient]
  | cons d rest ih =>
    by_cases h : clientLE c d = true
    · simp [insertClient, h]
    · simp [insertClient, h, ih]
      tauto

/-- Ordered insertion preserves pairwise ordering. -/
theorem pairwise_insertClient (c : Client) (l : List Client)
    (hl : l.Pairwise (fun a b => clientLE a b = true)) :
    (insertClient c l).Pairwise (fun a b => clientLE a b = true) := by
  induction l with
  | nil => simp [insertClient]
  | cons d rest ih =>
    rcases List.pairwise_cons.mp hl with ⟨hd, hrest⟩
    by_cases h : clientLE c d = true
    · rw [insertClient, if_pos h]
      refine List.pairwise_cons.mpr ⟨?_, hl⟩
      intro b hb
      rcases List.mem_cons.mp hb with rfl | hbm
      · exact h
      · exact clientLE_trans c d b h (hd b hbm)
    · rw [insertClient, if_neg h]
      refine List.pairwise_cons.mpr ⟨?_, ih hrest⟩
      intro b hb
      rcases (mem_insertClient b c rest).mp hb with rfl | hbm
      · rcases (Bool.or_eq_true _ _).mp (clientLE_total b d) with h1 | h2
        · exact absurd h1 h
        · exact h2
      · exact hd b hbm

/-- The ordered snapshot is pairwise ordered by `clientLE`. -/
theorem orderedSnapshot_pairwise (registry : List Client) :
    (orderedSnapshot registry).Pairwise (fun a b => clientLE a b = true) := by
  induction registry with
  | nil => simp [orderedSnapshot]
  | cons c rest ih => exact pairwise_insertClient c _ ih

/-- Membership is preserved between registry and ordered snapshot. -/
theorem mem_orderedSnapshot (c : Client) (registry : List Client) :
    c ∈ orderedSnapshot registry ↔ c ∈ registry := by
  induction registry with
  | nil => simp [orderedSnapshot]
  | cons d rest ih =>
    show c ∈ insertClient d (orderedSnapshot rest) ↔ _
    rw [mem_insertClient]
    simp [ih]

/-- An eligible client is under capacity. -/
theorem clientEligible_capacity (now : DateTime) (c : Client)
    (h : clientEligible now c = true) : c.ExistingLeads < c.LeadCapacity := by
  unfold clientEligible at h
  cases hp : parseTimePeriod now c.WorkingHours with
  | error e => rw [hp] at h; exact absurd h (by simp)
  | ok wh =>
    rw [hp] at h
    simp only [isEligible, Bool.and_eq_true, decide_eq_true_eq] at h
    exact h.2

/-- When the scan assigns, the snapshot splits into a scanned prefix of
parsed-but-ineligible clients, the assigned client (parsed, eligible,
its registry row incremented), and an unscanned suffix. -/
theorem assignScan_assigned_split (now : DateTime) (reg snap : List Client) (i : Int)
    (h : (assignScan now reg snap).1 = .assigned i) :
    ∃ pre c post, snap = pre ++ c :: post ∧ c.ID = i ∧ clientEligible now c = true ∧
      (assignScan now reg snap).2 = incrementLead reg c.ID ∧
      ∀ p ∈ pre, windowParses now p = true ∧ clientEligible now p = false := by
  induction snap with
  | nil => simp [assignScan] at h
  | cons c rest ih =>
    cases hp : parseTimePeriod now c.WorkingHours with
    | error e => simp [assignScan, hp] at h
    | ok wh =>
      by_cases hw : (now.after wh.Start && now.before wh.End) = true
      · by_cases hc : c.ExistingLeads < c.LeadCapacity
        · simp only [assignScan, hp, hw, if_true, hc, if_pos] at h ⊢
          refine ⟨[], c, rest, rfl, by injection h, ?_, rfl, by simp⟩
          simp [clientEligible, hp, isEligible, hw, hc]
        · simp only [assignScan, hp, hw, if_true, hc, if_neg, if_false] at h ⊢
          obtain ⟨pre, c', post, hsnap, hid, helig, hreg, hpre⟩ := ih h
          refine ⟨c :: pre, c', post, by simp [hsnap], hid, helig, hreg, ?_⟩
          intro p hp'
          rcases List.mem_cons.mp hp' with rfl | hmem
          · exact ⟨by simp [windowParses, hp], by simp [clientEligible, hp, isEligible, hw, hc]⟩
          · exact hpre p hmem
      · have hw0 : (now.after wh.Start && now.before wh.End) = false :=
          Bool.eq_false_iff.mpr hw
        simp only [assignScan, hp, hw0, if_false] at h ⊢
        obtain ⟨pre, c', post, hsnap, hid, helig, hreg, hpre⟩ := ih h
        refine ⟨c :: pre, c', post, by simp [hsnap], hid, helig, hreg, ?_⟩
        intro p hp'
        rcases List.mem_cons.mp hp' with rfl | hmem
        · exact ⟨by simp [windowParses, hp], by simp [clientEligible, hp, isEligible, hw0]⟩
        · exact hpre p hmem

/-- The scan either leaves the registry untouched or performs exactly the
one increment for an assigned client. -/
theorem assignScan_frame (now : DateTime) (reg snap : List Client) :
    (assignScan now reg snap).2 = reg ∨
      ∃ i, (assignScan now reg snap).1 = .assigned i ∧
        (assignScan now reg snap).2 = incrementLead reg i := by
  induction snap with
  | nil => exact Or.inl rfl
  | cons c rest ih =>
    cases hp : parseTimePeriod now c.WorkingHours with
    | error e => simp [assignScan, hp]
    | ok wh =>
      by_cases hw : (now.after wh.Start && now.before wh.End) = true
      · by_cases hc : c.ExistingLeads < c.LeadCapacity
        · simp only [assignScan, hp, hw, if_true, hc, if_pos]
          exact Or.inr ⟨c.ID, rfl, rfl⟩
        · simpa only [assignScan, hp, hw, if_true, hc, if_neg, if_false] using ih
      · have hw0 : (now.after wh.Start && now.before wh.End) = false :=
          Bool.eq_false_iff.mpr hw
        simpa only [assignScan, hp, hw0, if_false] using ih

/-- Step equation: a client whose window fails to parse aborts the scan. -/
theorem assignScan_cons_err (now : DateTime) (reg rest : List Client) (c : Client)
    (e : PeriodError) (hp : parseTimePeriod now c.WorkingHours = .error e) :
    assignScan now reg (c :: rest) = (.configError, reg) := by
  simp [assignScan, hp]

/-- Step equation: an in-window, under-capacity client receives the lead. -/
theorem assignScan_cons_take (now : DateTime) (reg rest : List Client) (c : Client)
    (wh : TimePeriod) (hp : parseTimePeriod now c.WorkingHours = .ok wh)
    (hw : (now.after wh.Start && now.before wh.End) = true)
    (hc : c.ExistingLeads < c.LeadCapacity) :
    assignScan now reg (c :: rest) = (.assigned c.ID, incrementLead reg c.ID) := by
  simp [assignScan, hp, hw, hc]

/-- Step equation: an in-window client at capacity is skipped. -/
theorem assignScan_cons_atCap (now : DateTime) (reg rest : List Client) (c : Client)
    (wh : TimePeriod) (hp : parseTimePeriod now c.WorkingHours = .ok wh)
    (hw : (now.after wh.Start && now.before wh.End) = true)
    (hc : ¬c.ExistingLeads < c.LeadCapacity) :
    assignScan now reg (c :: rest) = assignScan now reg rest := by
  simp [assignScan, hp, hw, hc]

/-- Step equation: an out-of-window client is skipped. -/
theorem assignScan_cons_outWindow (now : DateTime) (reg rest : List Client) (c : Client)
    (wh : TimePeriod) (hp : parseTimePeriod now c.WorkingHours = .ok wh)
    (hw0 : (now.after wh.Start && now.before wh.End) = false) :
    assignScan now reg (c :: rest) = assignScan now reg rest := by
  simp [assignScan, hp, hw0]

/-- The scan reports no suitable client exactly when every snapshot entry
parses and is ineligible. -/
theorem assignScan_noEligible_iff (now : DateTime) (reg snap : List Client) :
    (assignScan now reg snap).1 = .noEligible ↔
      ∀ c ∈ snap, windowParses now c = true ∧ clientEligible now c = false := by
  induction snap with
  | nil => simp [assignScan]
  | cons c rest ih =>
    cases hp : parseTimePeriod now c.WorkingHours with
    | error e =>
      rw [assignScan_cons_err now reg rest c e hp]
      constructor
      · intro h; exact absurd h (by simp)
      · intro h
        have := (h c (List.mem_cons_self c rest)).1
        simp [windowParses, hp] at this
    | ok wh =>
      by_cases hw : (now.after wh.Start && now.before wh.End) = true
      · by_cases hc : c.ExistingLeads < c.LeadCapacity
        · rw [assignScan_cons_take now reg rest c wh hp hw hc]
          constructor
          · intro h; exact absurd h (by simp)
          · intro h
            have := (h c (List.mem_cons_self c rest)).2
            simp [clientEligible, hp, isEligible, hw, hc] at this
        · have hcc : windowParses now c = true ∧ clientEligible now c = false :=
            ⟨by simp [windowParses, hp], by simp [clientEligible, hp, isEligible, hw, hc]⟩
          rw [assignScan_cons_atCap now reg rest c wh hp hw hc, ih]
          simp [List.forall_mem_cons, hcc.1, hcc.2]
      · have hw0 : (now.after wh.Start && now.before wh.End) = false :=
          Bool.eq_false_iff.mpr hw
        have hcc : windowParses now c = true ∧ clientEligible now c = false :=
          ⟨by simp [windowParses, hp], by simp [clientEligible, hp, isEligible, hw0]⟩
        rw [assignScan_cons_outWindow now reg rest c wh hp hw0, ih]
        simp [List.forall_mem_cons, hcc.1, hcc.2]

/-- The scan reports the configuration error exactly when the snapshot
has a prefix of parsed-and-ineligible clients followed by a client whose
working-hours string fails to parse. -/
theorem assignScan_configError_iff (now : DateTime) (reg snap : List Client) :
    (assignScan now reg snap).1 = .configError ↔
      ∃ pre c post, snap = pre ++ c :: post ∧
        (∀ p ∈ pre, windowParses now p = true ∧ clientEligible now p = false) ∧
        windowParses now c = false := by
  induction snap with
  | nil =>
    simp only [assignScan]
    constructor
    · intro h; exact absurd h (by simp)
    · rintro ⟨pre, c, post, hsnap, -, -⟩
      exact absurd hsnap (by simp)
  | cons c rest ih =>
    cases hp : parseTimePeriod now c.WorkingHours with
    | error e =>
      rw [assignScan_cons_err now reg rest c e hp]
      constructor
      · intro _
        exact ⟨[], c, rest, rfl, by simp, by simp [windowParses, hp]⟩
      · intro _; rfl
    | ok wh =>
      have hparse : windowParses now c = true := by simp [windowParses, hp]
      by_cases hw : (now.after wh.Start && now.before wh.End) = true
      · by_cases hc : c.ExistingLeads < c.LeadCapacity
        · rw [assignScan_cons_take now reg rest c wh hp hw hc]
          constructor
          · intro h; exact absurd h (by simp)
          · rintro ⟨pre, c', post, hsnap, hpre, hbad⟩
            cases pre with
            | nil =>
              injection hsnap with h1 h2
              rw [← h1] at hbad
              rw [hparse] at hbad
              exact absurd hbad (by simp)
            | cons q qre =>
              injection hsnap with h1 h2
              have hqe := (hpre q (List.mem_cons_self q qre)).2
              rw [← h1] at hqe
              simp [clientEligible, hp, isEligible, hw, hc] at hqe
        · have helig : clientEligible now c = false := by
            simp [clientEligible, hp, isEligible, hw, hc]
          rw [assignScan_cons_atCap now reg rest c wh hp hw hc, ih]
          constructor
          · rintro ⟨pre, c', post, hsnap, hpre, hbad⟩
            refine ⟨c :: pre, c', post, by simp [hsnap], ?_, hbad⟩
            intro p hp'
            rcases List.mem_cons.mp hp' with rfl | hmem
            · exact ⟨hparse, helig⟩
            · exact hpre p hmem
          · rintro ⟨pre, c', post, hsnap, hpre, hbad⟩
            cases pre with
            | nil =>
              injection hsnap with h1 h2
              rw [← h1] at hbad
              rw [hparse] at hbad
              exact absurd hbad (by simp)
            | cons q qre =>
              injection hsnap with h1 h2
              exact ⟨qre, c', post, h2, fun p hm => hpre p (List.mem_cons_of_mem q hm), hbad⟩
      · have hw0 : (now.after wh.Start && now.before wh.End) = false :=
          Bool.eq_false_iff.mpr hw
        have helig : clientEligible now c = false := by
          simp [clientEligible, hp, isEligible, hw0]
        rw [assignScan_cons_outWindow now reg rest c wh hp hw0, ih]
        constructor
        · rintro ⟨pre, c', post, hsnap, hpre, hbad⟩
          refine ⟨c :: pre, c', post, by simp [hsnap], ?_, hbad⟩
          intro p hp'
          rcases List.mem_cons.mp hp' with rfl | hmem
          · exact ⟨hparse, helig⟩
          · exact hpre p hmem
        · rintro ⟨pre, c', post, hsnap, hpre, hbad⟩
          cases pre with
          | nil =>
            injection hsnap with h1 h2
            rw [← h1] at hbad
            rw [hparse] at hbad
            exact absurd hbad (by simp)
          | cons q qre =>
            injection hsnap with h1 h2
            exact ⟨qre, c', post, h2, fun p hm => hpre p (List.mem_cons_of_mem q hm), hbad⟩

/-- Digit characters are digits. -/
theorem digitChar_isDigit (d : Int) (h0 : 0 ≤ d) (h9 : d ≤ 9) :
    (digitChar d).isDigit = true := by
  interval_cases d <;> decide

/-- Digit characters round-trip through `digitVal`. -/
theorem digitVal_digitChar (d : Int) (h0 : 0 ≤ d) (h9 : d ≤ 9) :
    digitVal (digitChar d) = d := by
  interval_cases d <;> decide

/-- Digit characters are not the dash separator. -/
theorem digitChar_ne_dash (d : Int) (h0 : 0 ≤ d) (h9 : d ≤ 9) :
    ¬digitChar d = '-' := by
  interval_cases d <;> decide

/-- A rendered `HH:MM` parses back to exactly its hour/minute pair. -/
theorem parseHHMM_render (h m : Int) (hh0 : 0 ≤ h) (hh : h ≤ 23)
    (hm0 : 0 ≤ m) (hm : m ≤ 59) :
    parseHHMM (renderHHMM h m) = some (h, m) := by
  have e1 := digitChar_isDigit (h / 10) (by omega) (by omega)
  have e2 := digitChar_isDigit (h % 10) (by omega) (by omega)
  have e3 := digitChar_isDigit (m / 10) (by omega) (by omega)
  have e4 := digitChar_isDigit (m % 10) (by omega) (by omega)
  have v1 := digitVal_digitChar (h / 10) (by omega) (by omega)
  have v2 := digitVal_digitChar (h % 10) (by omega) (by omega)
  have v3 := digitVal_digitChar (m / 10) (by omega) (by omega)
  have v4 := digitVal_digitChar (m % 10) (by omega) (by omega)
  simp only [renderHHMM, parseHHMM, e1, e2, e3, e4, v1, v2, v3, v4, if_true]
  rw [if_pos (by omega : 10 * (h / 10) + h % 10 ≤ 23)]
  rw [if_pos (by omega : 10 * (m / 10) + m % 10 ≤ 59)]
  simp only [Bool.and_self, if_true, Option.some.injEq, Prod.mk.injEq]
  exact ⟨by omega, by omega⟩

/-- Splitting two rendered `HH:MM` parts around a dash yields exactly the
two parts. -/
theorem splitDash_render (h m h2 m2 : Int)
    (hh0 : 0 ≤ h) (hh : h ≤ 23) (hm0 : 0 ≤ m) (hm : m ≤ 59)
    (hh0' : 0 ≤ h2) (hh' : h2 ≤ 23) (hm0' : 0 ≤ m2) (hm' : m2 ≤ 59) :
    splitDash (renderHHMM h m ++ '-' :: renderHHMM h2 m2) =
      [renderHHMM h m, renderHHMM h2 m2] := by
  have n1 := digitChar_ne_dash (h / 10) (by omega) (by omega)
  have n2 := digitChar_ne_dash (h % 10) (by omega) (by omega)
  have n3 := digitChar_ne_dash (m / 10) (by omega) (by omega)
  have n4 := digitChar_ne_dash (m % 10) (by omega) (by omega)
  have n5 := digitChar_ne_dash (h2 / 10) (by omega) (by omega)
  have n6 := digitChar_ne_dash (h2 % 10) (by omega) (by omega)
  have n7 := digitChar_ne_dash (m2 / 10) (by omega) (by omega)
  have n8 := digitChar_ne_dash (m2 % 10) (by omega) (by omega)
  simp [renderHHMM, splitDash, n1, n2, n3, n4, n5, n6, n7, n8]

/-- A well-formed rendered window string parses to the pair of instants
with exactly the rendered hours and minutes, anchored to the date of
`now`. -/
theorem parseTimePeriod_render (now : DateTime) (h1 m1 h2 m2 : Int)
    (hh0 : 0 ≤ h1) (hh : h1 ≤ 23) (hm0 : 0 ≤ m1) (hm : m1 ≤ 59)
    (hh0' : 0 ≤ h2) (hh' : h2 ≤ 23) (hm0' : 0 ≤ m2) (hm' : m2 ≤ 59) :
    parseTimePeriod now (renderHHMM h1 m1 ++ '-' :: renderHHMM h2 m2) =
      .ok ⟨anchorToDay now h1 m1, anchorToDay now h2 m2⟩ := by
  simp only [parseTimePeriod,
    splitDash_render h1 m1 h2 m2 hh0 hh hm0 hm hh0' hh' hm0' hm',
    parseHHMM_render h1 m1 hh0 hh hm0 hm,
    parseHHMM_render h2 m2 hh0' hh' hm0' hm']

/-- C1: the claim states that the check-and-increment is a single atomic
operation, so that two concurrent assignment calls against a client with
capacity 1 and zero load yield exactly 1 success and the lead count never
passes the capacity.  The code refutes this: its capacity check reads the
snapshot and its `UPDATE` increments unconditionally, so under the
interleaving in which both requests read their snapshots before either
commits, both requests are answered with an assignment and the client's
lead count reaches 2, exceeding its capacity 1. -/
theorem twoRequestRace_exceedsCapacity :
    (twoRequestRace now14 [raceClient]).1.1 = .assigned 1 ∧
    (twoRequestRace now14 [raceClient]).1.2 = .assigned 1 ∧
    (twoRequestRace now14 [raceClient]).2 =
      [{ raceClient with ExistingLeads := 2 }] ∧
    raceClient.LeadCapacity = 1 ∧ raceClient.ExistingLeads = 0 := by
  decide

/-- C2 counterexample: at the boundary instant 09:00 — the start of the
window parsed from `"09:00-17:00"` — an under-capacity client satisfies
the claim's half-open predicate (`now` in `[start, end)`), but the code's
predicate, built from strict `After`/`Before`, is false, so the claimed
"if and only if" fails at this input. -/
theorem eligibility_boundary_counterexample :
    parseTimePeriod now9 ("09:00-17:00".toList) = .ok period9to17 ∧
    period9to17.Start = now9 ∧
    raceClient.ExistingLeads < raceClient.LeadCapacity ∧
    isEligibleSpec now9 period9to17 raceClient = true ∧
    isEligible now9 period9to17 raceClient = false := by
  decide

/-- C2 (amended): the eligibility predicate holds for a client, resolved
period and instant `now` if and only if `now` lies strictly between the
period's start and end (both bounds exclusive, via the strict
`After`/`Before` comparisons) and the client's lead count is below its
capacity; both conditions are required, and the predicate is a pure
function of its arguments. -/
theorem isEligible_iff_strict_window_and_capacity (now : DateTime)
    (wh : TimePeriod) (c : Client) :
    isEligible now wh c = true ↔
      (wh.Start < now ∧ now < wh.End ∧ c.ExistingLeads < c.LeadCapacity) := by
  simp only [isEligible, DateTime.after, DateTime.before, Bool.and_eq_true,
    decide_eq_true_eq]
  exact ⟨fun h => ⟨h.1.1, h.1.2, h.2⟩, fun h => ⟨⟨h.1, h.2.1⟩, h.2.2⟩⟩

/-- C3: the selector scans the snapshot sorted by priority descending
with ties broken by lead count ascending, so whenever the handler
assigns, the assigned record is an eligible client whose priority is
strictly above that of every other eligible candidate of different
priority, and whose lead count is no larger than that of every other
eligible candidate of equal priority — whatever the registry iteration
order was. -/
theorem assigned_maximal_priority (now : DateTime) (registry : List Client)
    (i : Int) (h : (assignLead now registry).1 = .assigned i) :
    ∃ c ∈ registry, c.ID = i ∧ clientEligible now c = true ∧
      ∀ d ∈ registry, clientEligible now d = true → d ≠ c →
        d.Priority < c.Priority ∨
          (d.Priority = c.Priority ∧ c.ExistingLeads ≤ d.ExistingLeads) := by
  obtain ⟨pre, c, post, hsnap, hid, helig, -, hpre⟩ :=
    assignScan_assigned_split now registry (orderedSnapshot registry) i h
  have hcmem : c ∈ orderedSnapshot registry := by
    rw [hsnap]
    exact List.mem_append_right _ (List.mem_cons_self _ _)
  refine ⟨c, (mem_orderedSnapshot c registry).mp hcmem, hid, helig, ?_⟩
  intro d hd hde hdc
  have hds : d ∈ orderedSnapshot registry := (mem_orderedSnapshot d registry).mpr hd
  rw [hsnap] at hds
  rcases List.mem_append.mp hds with hdpre | hdrest
  · rw [(hpre d hdpre).2] at hde
    exact absurd hde (by simp)
  · rcases List.mem_cons.mp hdrest with rfl | hdpost
    · exact absurd rfl hdc
    · have hpw := orderedSnapshot_pairwise registry
      rw [hsnap] at hpw
      have h3 := (List.pairwise_append.mp hpw).2.1
      have hle : clientLE c d = true := (List.pairwise_cons.mp h3).1 d hdpost
      simp only [clientLE, decide_eq_true_eq] at hle
      rcases hle with h4 | ⟨h4, h5⟩
      · exact Or.inl h4
      · exact Or.inr ⟨h4.symm, h5⟩

/-- C3 witness: on the test fixture at 14:00, the handler assigns client
2, and that client dominates every other eligible candidate of the
registry in the priority-then-load order. -/
theorem assigned_maximal_priority_witness :
    (assignLead now14 fixtureRegistry).1 = .assigned 2 ∧
    ∃ c ∈ fixtureRegistry, c.ID = 2 ∧ clientEligible now14 c = true ∧
      ∀ d ∈ fixtureRegistry, clientEligible now14 d = true → d ≠ c →
        d.Priority < c.Priority ∨
          (d.Priority = c.Priority ∧ c.ExistingLeads ≤ d.ExistingLeads) :=
  ⟨by decide, assigned_maximal_priority now14 fixtureRegistry 2 (by decide)⟩

/-- C4: when the handler assigns, the ordered snapshot splits into a
scanned prefix whose clients all parse but fail the eligibility
predicate, the assigned client — first whose window parses and whose
predicate holds — whose id is returned and whose registry row receives
the single increment, and an unscanned suffix; the scan stops at the
assignment, so no later client is committed to (every successful commit
in this sequential model succeeds at once). -/
theorem assigned_first_eligible (now : DateTime) (registry : List Client)
    (i : Int) (h : (assignLead now registry).1 = .assigned i) :
    ∃ pre c post, orderedSnapshot registry = pre ++ c :: post ∧
      c.ID = i ∧ clientEligible now c = true ∧
      (∀ p ∈ pre, windowParses now p = true ∧ clientEligible now p = false) ∧
      (assignLead now registry).2 = incrementLead registry i := by
  obtain ⟨pre, c, post, hsnap, hid, helig, hreg, hpre⟩ :=
    assignScan_assigned_split now registry (orderedSnapshot registry) i h
  refine ⟨pre, c, post, hsnap, hid, helig, hpre, ?_⟩
  rw [← hid]
  exact hreg

/-- C4 witness: on the test fixture at 14:00 the handler assigns client
2: the snapshot splits around it with the (at-capacity) client 1 as the
scanned prefix, and the registry update is the single increment of row
2. -/
theorem assigned_first_eligible_witness :
    (assignLead now14 fixtureRegistry).1 = .assigned 2 ∧
    ∃ pre c post, orderedSnapshot fixtureRegistry = pre ++ c :: post ∧
      c.ID = 2 ∧ clientEligible now14 c = true ∧
      (∀ p ∈ pre, windowParses now14 p = true ∧ clientEligible now14 p = false) ∧
      (assignLead now14 fixtureRegistry).2 = incrementLead fixtureRegistry 2 :=
  ⟨by decide, assigned_first_eligible now14 fixtureRegistry 2 (by decide)⟩

/-- C5: the handler's scan has exactly the three outcomes of
`AssignResult`, raised exactly at their causes: it reports the
configuration error (distinct from the no-suitable-client response) if
and only if the ordered snapshot reaches — past scanned clients that all
parse and are ineligible — a client whose working-hours string fails to
parse, and it reports no suitable client if and only if every registry
client's window parses and no client is eligible. -/
theorem assign_error_taxonomy (now : DateTime) (registry : List Client) :
    ((assignLead now registry).1 = .configError ↔
      ∃ pre c post, orderedSnapshot registry = pre ++ c :: post ∧
        (∀ p ∈ pre, windowParses now p = true ∧ clientEligible now p = false) ∧
        windowParses now c = false) ∧
    ((assignLead now registry).1 = .noEligible ↔
      ∀ c ∈ registry, windowParses now c = true ∧ clientEligible now c = false) := by
  constructor
  · exact assignScan_configError_iff now registry (orderedSnapshot registry)
  · have hbase := assignScan_noEligible_iff now registry (orderedSnapshot registry)
    rw [show (assignLead now registry).1 =
        (assignScan now registry (orderedSnapshot registry)).1 from rfl, hbase]
    constructor
    · intro h c hc
      exact h c ((mem_orderedSnapshot c registry).mpr hc)
    · intro h c hc
      exact h c ((mem_orderedSnapshot c registry).mp hc)

/-- C5 witness: a registry whose only client has the malformed window
`"non-time-format"` yields the configuration error, and the empty
registry yields the no-suitable-client outcome; both follow from the
taxonomy instantiated at those registries. -/
theorem assign_error_taxonomy_witness :
    (assignLead now14 [⟨7, [], "non-time-format".toList, 1, 5, 0⟩]).1 =
      .configError ∧
    (assignLead now14 ([] : List Client)).1 = .noEligible :=
  ⟨(assign_error_taxonomy now14 [⟨7, [], "non-time-format".toList, 1, 5, 0⟩]).1.mpr
      ⟨[], ⟨7, [], "non-time-format".toList, 1, 5, 0⟩, [], by decide, by decide, by decide⟩,
    (assign_error_taxonomy now14 ([] : List Client)).2.mpr (by decide)⟩

/-- C6: for every valid `"HH:MM-HH:MM"` input with start earlier than
end on the same day, `parseTimePeriod` succeeds and returns a period
whose start and end carry exactly the input's hours and minutes,
anchored to the calendar date (year, month, day) of `now`, with seconds
and sub-seconds zero. -/
theorem parse_valid_window (now : DateTime) (h1 m1 h2 m2 : Int)
    (hb : 0 ≤ h1 ∧ h1 ≤ 23 ∧ 0 ≤ m1 ∧ m1 ≤ 59 ∧
      0 ≤ h2 ∧ h2 ≤ 23 ∧ 0 ≤ m2 ∧ m2 ≤ 59 ∧ h1 * 60 + m1 < h2 * 60 + m2) :
    parseTimePeriod now (renderHHMM h1 m1 ++ '-' :: renderHHMM h2 m2) =
      .ok ⟨⟨now.year, now.month, now.day, h1, m1, 0, 0⟩,
           ⟨now.year, now.month, now.day, h2, m2, 0, 0⟩⟩ := by
  obtain ⟨b1, b2, b3, b4, b5, b6, b7, b8, -⟩ := hb
  exact parseTimePeriod_render now h1 m1 h2 m2 b1 b2 b3 b4 b5 b6 b7 b8

/-- C6 witness: the window `"09:00-17:00"` (as rendered hour/minute
pairs) parses on the fixture date to 09:00 and 17:00 of that date. -/
theorem parse_valid_window_witness :
    renderHHMM 9 0 ++ '-' :: renderHHMM 17 0 = "09:00-17:00".toList ∧
    parseTimePeriod now14 (renderHHMM 9 0 ++ '-' :: renderHHMM 17 0) =
      .ok ⟨⟨2024, 6, 15, 9, 0, 0, 0⟩, ⟨2024, 6, 15, 17, 0, 0, 0⟩⟩ :=
  ⟨by decide, parse_valid_window now14 9 0 17 0 (by decide)⟩

/-- C7: `parseTimePeriod` fails with the format error exactly when the
dash split is not two parts, with the start-naming error exactly when
the split succeeds and the first part is not `HH:MM`, and with the
end-naming error exactly when the first part parses and the second does
not; in particular `"non-time-format"` (whose split has three parts)
fails with the format error and never yields a period. -/
theorem parse_failure_taxonomy (now : DateTime) (s : List Char) :
    (parseTimePeriod now s = .error .formatError ↔
      ¬∃ a b, splitDash s = [a, b]) ∧
    (parseTimePeriod now s = .error .startTimeError ↔
      ∃ a b, splitDash s = [a, b] ∧ parseHHMM a = none) ∧
    (parseTimePeriod now s = .error .endTimeError ↔
      ∃ a b hm, splitDash s = [a, b] ∧ parseHHMM a = some hm ∧ parseHHMM b = none) ∧
    parseTimePeriod now ("non-time-format".toList) = .error .formatError := by
  refine ⟨?_, ?_, ?_, rfl⟩ <;>
  · rcases hsp : splitDash s with _ | ⟨a, _ | ⟨b, _ | ⟨c, rest3⟩⟩⟩
    · simp [parseTimePeriod, hsp]
    · simp [parseTimePeriod, hsp]
    · cases hpa : parseHHMM a with
      | none => simp [parseTimePeriod, hsp, hpa]
      | some p =>
        obtain ⟨p1, p2⟩ := p
        cases hpb : parseHHMM b with
        | none =>
          simp [parseTimePeriod, hsp, hpa, hpb] <;>
            exact ⟨a, b, ⟨rfl, rfl⟩, ⟨p1, p2, hpa⟩, hpb⟩
        | some q => simp [parseTimePeriod, hsp, hpa, hpb]
    · simp [parseTimePeriod, hsp]

/-- C7 witness: a bad start side is reported as the start error, a bad
end side as the end error, and the three-part split of
`"non-time-format"` as the format error. -/
theorem parse_failure_taxonomy_witness :
    parseTimePeriod now14 ("ab:00-17:00".toList) = .error .startTimeError ∧
    parseTimePeriod now14 ("09:00-17:0x".toList) = .error .endTimeError ∧
    parseTimePeriod now14 ("non-time-format".toList) = .error .formatError :=
  ⟨(parse_failure_taxonomy now14 ("ab:00-17:00".toList)).2.1.mpr
      ⟨"ab:00".toList, "17:00".toList, by decide, by decide⟩,
    (parse_failure_taxonomy now14 ("09:00-17:0x".toList)).2.2.1.mpr
      ⟨"09:00".toList, "17:0x".toList, (9, 0), by decide, by decide, by decide⟩,
    (parse_failure_taxonomy now14 ("non-time-format".toList)).2.2.2⟩

/-- C8: a window string of two valid `HH:MM` parts whose end clock-time
is numerically earlier than its start parses successfully with no
normalization: both ends are anchored to the calendar date of `now`, the
resulting period has its end strictly before its start, and no instant
and no client ever satisfies the eligibility predicate against it. -/
theorem inverted_window_never_eligible (now : DateTime) (h1 m1 h2 m2 : Int)
    (hb : 0 ≤ h1 ∧ h1 ≤ 23 ∧ 0 ≤ m1 ∧ m1 ≤ 59 ∧
      0 ≤ h2 ∧ h2 ≤ 23 ∧ 0 ≤ m2 ∧ m2 ≤ 59 ∧ h2 * 60 + m2 < h1 * 60 + m1) :
    parseTimePeriod now (renderHHMM h1 m1 ++ '-' :: renderHHMM h2 m2) =
      .ok ⟨anchorToDay now h1 m1, anchorToDay now h2 m2⟩ ∧
    anchorToDay now h2 m2 < anchorToDay now h1 m1 ∧
    ∀ (t : DateTime) (c : Client),
      isEligible t ⟨anchorToDay now h1 m1, anchorToDay now h2 m2⟩ c = false := by
  obtain ⟨b1, b2, b3, b4, b5, b6, b7, b8, blt⟩ := hb
  have hk : (anchorToDay now h2 m2).key < (anchorToDay now h1 m1).key := by
    simp only [anchorToDay, DateTime.key]
    omega
  refine ⟨parseTimePeriod_render now h1 m1 h2 m2 b1 b2 b3 b4 b5 b6 b7 b8, hk, ?_⟩
  intro t c
  simp only [isEligible, DateTime.after, DateTime.before]
  by_cases ht : (anchorToDay now h1 m1).key < t.key
  · have ht2 : ¬t.key < (anchorToDay now h2 m2).key := by omega
    simp [ht, ht2]
  · simp [ht]

/-- C8 witness: the test fixture's own midnight-spanning window
`"16:30-00:30"` parses on the fixture date to a period ending at 00:30,
before its 16:30 start, against which no instant and no client is ever
eligible. -/
theorem inverted_window_never_eligible_witness :
    renderHHMM 16 30 ++ '-' :: renderHHMM 0 30 = "16:30-00:30".toList ∧
    (parseTimePeriod now14 (renderHHMM 16 30 ++ '-' :: renderHHMM 0 30) =
      .ok ⟨anchorToDay now14 16 30, anchorToDay now14 0 30⟩ ∧
    anchorToDay now14 0 30 < anchorToDay now14 16 30 ∧
    ∀ (t : DateTime) (c : Client),
      isEligible t ⟨anchorToDay now14 16 30, anchorToDay now14 0 30⟩ c = false) :=
  ⟨by decide, inverted_window_never_eligible now14 16 30 0 30 (by decide)⟩

/-- C9: one call performs at most one registry write: when it assigns
client id `i`, the resulting registry is the input registry with exactly
the row(s) of id `i` — one row under the schema's id uniqueness —
incremented by one in `ExistingLeads` and untouched in every other
field, and every row of a different id unchanged; on the
configuration-error and no-eligible-client outcomes the registry is
completely unchanged (a snapshot-read failure aborts before the scan and
writes nothing by construction). -/
theorem assignLead_frame (now : DateTime) (registry : List Client) :
    (∀ i, (assignLead now registry).1 = .assigned i →
      (assignLead now registry).2 = registry.map fun c =>
        if c.ID = i then { c with ExistingLeads := c.ExistingLeads + 1 } else c) ∧
    ((assignLead now registry).1 = .configError →
      (assignLead now registry).2 = registry) ∧
    ((assignLead now registry).1 = .noEligible →
      (assignLead now registry).2 = registry) := by
  refine ⟨?_, ?_, ?_⟩
  · intro i h
    obtain ⟨pre, c, post, hsnap, hid, helig, hreg, hpre⟩ :=
      assignScan_assigned_split now registry (orderedSnapshot registry) i h
    have h2 : (assignLead now registry).2 = incrementLead registry c.ID := hreg
    rw [h2, hid]
    rfl
  · intro h
    rcases assignScan_frame now registry (orderedSnapshot registry) with h2 | ⟨i, hi, -⟩
    · exact h2
    · have hcontra : (assignLead now registry).1 = .assigned i := hi
      rw [h] at hcontra
      exact absurd hcontra (by simp)
  · intro h
    rcases assignScan_frame now registry (orderedSnapshot registry) with h2 | ⟨i, hi, -⟩
    · exact h2
    · have hcontra : (assignLead now registry).1 = .assigned i := hi
      rw [h] at hcontra
      exact absurd hcontra (by simp)

/-- C9 witness: on the test fixture at 14:00 the handler assigns client
2 and the final registry is the fixture with exactly row 2 incremented. -/
theorem assignLead_frame_witness :
    (assignLead now14 fixtureRegistry).1 = .assigned 2 ∧
    (assignLead now14 fixtureRegistry).2 = fixtureRegistry.map fun c =>
      if c.ID = 2 then { c with ExistingLeads := c.ExistingLeads + 1 } else c :=
  ⟨by decide, (assignLead_frame now14 fixtureRegistry).1 2 (by decide)⟩

/-- C10: in a sequential execution over a registry with unique ids (the
schema's PRIMARY KEY), every call preserves the per-client invariant
`0 ≤ existingLeads ≤ leadCapacity`: if every registry client satisfies
it before the call, every client of the resulting registry satisfies it
after, whatever the outcome. -/
theorem assignLead_preserves_invariant (now : DateTime) (registry : List Client)
    (hids : (registry.map Client.ID).Nodup)
    (hinv : ∀ c ∈ registry, 0 ≤ c.ExistingLeads ∧ c.ExistingLeads ≤ c.LeadCapacity) :
    ∀ c ∈ (assignLead now registry).2,
      0 ≤ c.ExistingLeads ∧ c.ExistingLeads ≤ c.LeadCapacity := by
  rcases assignScan_frame now registry (orderedSnapshot registry) with h2 | ⟨i, hi, hreg⟩
  · intro c hc
    have h2' : (assignLead now registry).2 = registry := h2
    rw [h2'] at hc
    exact hinv c hc
  · obtain ⟨pre, c0, post, hsnap, hid, helig, hreg2, -⟩ :=
      assignScan_assigned_split now registry (orderedSnapshot registry) i hi
    have h2' : (assignLead now registry).2 = incrementLead registry c0.ID := hreg2
    have hc0mem : c0 ∈ registry := by
      refine (mem_orderedSnapshot c0 registry).mp ?_
      rw [hsnap]
      exact List.mem_append_right _ (List.mem_cons_self _ _)
    have hcap : c0.ExistingLeads < c0.LeadCapacity :=
      clientEligible_capacity now c0 helig
    intro c hc
    rw [h2'] at hc
    simp only [incrementLead, List.mem_map] at hc
    obtain ⟨y, hy, hyc⟩ := hc
    by_cases hyid : y.ID = c0.ID
    · have hyeq : y = c0 := List.inj_on_of_nodup_map hids hy hc0mem hyid
      rw [if_pos hyid] at hyc
      rw [← hyc]
      have hy1 := (hinv y hy).1
      refine ⟨by simp only []; omega, ?_⟩
      show y.ExistingLeads + 1 ≤ y.LeadCapacity
      rw [hyeq]
      omega
    · rw [if_neg hyid] at hyc
      rw [← hyc]
      exact hinv y hy

/-- C10 witness: the fixture registry has unique ids and satisfies the
invariant, and after the 14:00 call every resulting client still
satisfies it. -/
theorem assignLead_preserves_invariant_witness :
    (fixtureRegistry.map Client.ID).Nodup ∧
    (∀ c ∈ fixtureRegistry,
      0 ≤ c.ExistingLeads ∧ c.ExistingLeads ≤ c.LeadCapacity) ∧
    ∀ c ∈ (assignLead now14 fixtureRegistry).2,
      0 ≤ c.ExistingLeads ∧ c.ExistingLeads ≤ c.LeadCapacity :=
  ⟨by decide, by decide,
    assignLead_preserves_invariant now14 fixtureRegistry (by decide) (by decide)⟩
